import Mathlib

/-
Shallow embedding of `src/rust/src/prefix32.rs` (the `Prefix32` IPv4
prefix/netmask codec) and proofs of the specification's claims about it.

Machine integers are modelled as `Nat` (all values involved stay below
`2 ^ 32`, and the `u8` parser bounds its result by 255, so no wrap-around
can occur).  Rust `Result<T, String>` is `Except String T`; a Rust panic
(`unwrap` on a failed parse, or a left shift by a negative amount) is the
`panicked` constructor of `PanicOr`.
-/

/-- Modelled from the spec: the generic `Prefix` record, whose definition
lives outside this fragment.  It holds the prefix `length` (`num`), the
address width (`ip_bits`), the per-group width (`ip_part_bits`) and the
precomputed mask (`in_mask`); the family-specific function-pointer fields
carry no data and are omitted. -/
structure Prefix where
  num : Nat
  ip_bits : Nat
  ip_part_bits : Nat
  in_mask : Nat
  deriving DecidableEq

/-- Modelled from the spec: `Prefix::in_mask(bits)`, the externally computed
mask constant stored in the record (named `inMask` here because the record
field already uses the source name `in_mask`).  The spec gives no formula,
only that it is a precomputed bitmask of the full address width, so it is
modelled as the all-ones value of that width; no claim depends on it. -/
def Prefix.inMask (bits : Nat) : Nat := 2 ^ bits - 1

/-- Result of running code that can panic: Rust `unwrap` on a failed group
parse, or a shift by a negative amount, aborts the program instead of
returning a `Result`. -/
inductive PanicOr (α : Type) where
  | panicked : PanicOr α
  | ok : α → PanicOr α
  deriving DecidableEq

instance {ε α : Type} [DecidableEq ε] [DecidableEq α] : DecidableEq (Except ε α) :=
  fun a b =>
  match a, b with
  | .error e, .error f =>
    if h : e = f then isTrue (by rw [h]) else isFalse (by intro hc; cases hc; exact h rfl)
  | .ok x, .ok y =>
    if h : x = y then isTrue (by rw [h]) else isFalse (by intro hc; cases hc; exact h rfl)
  | .error _, .ok _ => isFalse (by intro hc; cases hc)
  | .ok _, .error _ => isFalse (by intro hc; cases hc)

/-- Helper for `parse_u8`: Rust's unsigned integer parser accepts one
optional leading `+` sign before the digits. -/
def stripPlus : List Char → List Char
  | '+' :: rest => rest
  | cs => cs

/-- Decimal value of a digit string, most significant digit first. -/
def digitsVal (ds : List Char) : Nat :=
  ds.foldl (fun acc c => acc * 10 + (c.toNat - '0'.toNat)) 0

/-- Model of Rust `str::parse::<u8>()`: an optional leading `+`, then one or
more ASCII digits, whose value must fit in 8 bits (at most 255; the source
parser checks overflow digit by digit, which rejects exactly the same digit
strings); any other input fails (`none`). -/
def parse_u8 (s : String) : Option Nat :=
  if (stripPlus s.data).isEmpty || !(stripPlus s.data).all Char.isDigit then none
  else if digitsVal (stripPlus s.data) ≤ 255 then some (digitsVal (stripPlus s.data))
  else none

/-- Helper for `splitDot`: accumulates the current group (in reverse) and
cuts at every separator, exactly like Rust `str::split`. -/
def splitDotAux : List Char → List Char → List String
  | [], acc => [String.mk acc.reverse]
  | c :: rest, acc =>
    if c = '.' then String.mk acc.reverse :: splitDotAux rest []
    else splitDotAux rest (c :: acc)

/-- Model of Rust `netmask.split(".")`: split the string at every period,
keeping empty pieces (so the empty string yields one empty group). -/
def splitDot (s : String) : List String := splitDotAux s.data []

/-- The group-accumulation loop of `parse_netmask`: `shift` starts at 24 and
drops by 8 for every group; each group is parsed with
`i.parse::<u8>().unwrap()`, so a malformed group panics, and a fifth group
makes `shift` negative, which panics the left shift.  The parsed octet is
shifted into place and OR-ed into `ip`. -/
def readGroups : List String → Int → Nat → PanicOr Nat
  | [], _shift, ip => .ok ip
  | g :: rest, shift, ip =>
    match parse_u8 g with
    | none => .panicked
    | some v =>
      if shift < 0 then .panicked
      else readGroups rest (shift - 8) (ip ||| v <<< shift.toNat)

/-- First scan loop of `parse_netmask`: consume trailing zero bits of `ip`,
counting them in `nulls`.  The Rust loop runs `while nulls < 32` and breaks
at the first one-bit; here `fuel` stands for `32 - nulls`, so the loop stops
when `fuel` reaches 0.  Returns the shifted `ip` and the final `nulls`. -/
def scanZeros : Nat → Nat → Nat → Nat × Nat
  | 0, ip, nulls => (ip, nulls)
  | fuel + 1, ip, nulls =>
    if ip % 2 = 0 then scanZeros fuel (ip / 2) (nulls + 1) else (ip, nulls)

/-- Second scan loop of `parse_netmask`: every remaining bit (again `fuel`
stands for `32 - nulls`) must be a one-bit, counted in the accumulator; a
zero bit returns the contiguity error naming the original netmask text. -/
def scanOnes (netmask : String) : Nat → Nat → Nat → Except String Nat
  | 0, _ip, one_prefix => .ok one_prefix
  | fuel + 1, ip, one_prefix =>
    if ip % 2 = 1 then scanOnes netmask fuel (ip / 2) ( one_prefix + 1)
    else .error ("Prefix must be 111 and 000 " ++ netmask)

namespace Prefix32

/-- `Prefix32::new`: when `0 <= num && num <= 32` (the lower bound is vacuous
for the unsigned `num`, hence the `allow(unused_comparisons)` in the source)
build the `Prefix` record with `ip_bits = 32`, `ip_part_bits = 8` and the
externally computed `in_mask`; otherwise return the range error carrying the
offending value.  `num` is a `u8`, modelled as a `Nat` (callers stay below
256). -/
def new (num : Nat) : Except String Prefix :=
  if num ≤ 32 then .ok ⟨num, 32, 8, Prefix.inMask 32⟩
  else .error ("Prefix must be in range 0..32, got: " ++ toString num)

/-- `Prefix32::from`: takes a `Prefix` receiver and a number, ignores the
receiver (`allow(unused_variables)` in the source) and delegates to `new`. -/
def «from» (_my : Prefix) (num : Nat) : Except String Prefix := new num

/-- `Prefix32::to_ip_str`: format four groups as a dotted-decimal string via
`format!("{}.{}.{}.{}", my.get(0).unwrap(), ...)`.  A vector with fewer than
four elements hits the `None` branch of `Vec::get` and the `unwrap` panics,
modelled as `none`. -/
def to_ip_str (my : List Nat) : Option String :=
  match my.get? 0, my.get? 1, my.get? 2, my.get? 3 with
  | some g0, some g1, some g2, some g3 =>
    some (toString g0 ++ "." ++ toString g1 ++ "." ++ toString g2 ++ "." ++ toString g3)
  | _, _, _, _ => none

/-- `Prefix32::parse_netmask`: split the text on `.`, accumulate the 32-bit
value (`readGroups`), strip the trailing zero bits (`scanZeros`), require
every remaining bit to be a one (`scanOnes`) and hand the count of ones to
`new` for the final range check. -/
def parse_netmask (netmask : String) : PanicOr (Except String Prefix) :=
  match readGroups (splitDot netmask) 24 0 with
  | .panicked => .panicked
  | .ok ip =>
    .ok (match scanOnes netmask (32 - (scanZeros 32 ip 0).2) (scanZeros 32 ip 0).1 0 with
         | .error e => .error e
         | .ok one_prefix => new one_prefix)

end Prefix32

/-- Modelled from the spec: the four dotted-decimal groups of the netmask
denoted by a prefix of length `n` (group 0 most significant).  The octet
extraction itself lives outside this fragment (the source's `octets` and
`to_u32` are commented out); the spec derives the groups from the prefix
mask, which for length `n` is `n` one-bits followed by `32 - n` zero-bits. -/
def netmask_octets (n : Nat) : List Nat :=
  let mask := 2 ^ 32 - 2 ^ (32 - n)
  [mask / 2 ^ 24 % 256, mask / 2 ^ 16 % 256, mask / 2 ^ 8 % 256, mask % 256]

/-! ### Helper lemmas about the parsing pipeline -/

/-- A successfully parsed group fits in one octet. -/
theorem parse_u8_le {g : String} {v : Nat} (h : parse_u8 g = some v) : v ≤ 255 := by
  unfold parse_u8 at h
  split at h
  · exact absurd h (by simp)
  · split at h
    · cases h; assumption
    · exact absurd h (by simp)

/-- Unfolding `readGroups` on a list of exactly four valid groups. -/
theorem readGroups_four {g0 g1 g2 g3 : String} {v0 v1 v2 v3 : Nat}
    (h0 : parse_u8 g0 = some v0) (h1 : parse_u8 g1 = some v1)
    (h2 : parse_u8 g2 = some v2) (h3 : parse_u8 g3 = some v3) :
    readGroups [g0, g1, g2, g3] 24 0 =
      .ok ((((0 ||| v0 <<< 24) ||| v1 <<< 16) ||| v2 <<< 8) ||| v3 <<< 0) := by
  simp only [readGroups, h0, h1, h2, h3]
  norm_num
  rfl

/-- The value assembled from four octets fits in 32 bits. -/
theorem four_octets_lt {v0 v1 v2 v3 : Nat}
    (h0 : v0 ≤ 255) (h1 : v1 ≤ 255) (h2 : v2 ≤ 255) (h3 : v3 ≤ 255) :
    (((0 ||| v0 <<< 24) ||| v1 <<< 16) ||| v2 <<< 8) ||| v3 <<< 0 < 2 ^ 32 := by
  have sh : ∀ v s : Nat, v ≤ 255 → s ≤ 24 → v <<< s < 2 ^ 32 := by
    intro v s hv hs
    rw [Nat.shiftLeft_eq]
    calc v * 2 ^ s ≤ 255 * 2 ^ 24 :=
          Nat.mul_le_mul hv (Nat.pow_le_pow_right (by norm_num) hs)
      _ < 2 ^ 32 := by norm_num
  have z : (0 : Nat) < 2 ^ 32 := by norm_num
  exact Nat.bitwise_lt
    (Nat.bitwise_lt
      (Nat.bitwise_lt
        (Nat.bitwise_lt z (sh v0 24 h0 (by norm_num)))
        (sh v1 16 h1 (by norm_num)))
      (sh v2 8 h2 (by norm_num)))
    (sh v3 0 h3 (by norm_num))

/-- If any group of the list fails to parse, the accumulation loop panics
(either on that group's `unwrap` or earlier). -/
theorem readGroups_panicked_of_mem {gs : List String} {g : String}
    (hmem : g ∈ gs) (hbad : parse_u8 g = none) :
    ∀ (shift : Int) (ip : Nat), readGroups gs shift ip = .panicked := by
  induction gs with
  | nil => cases hmem
  | cons a rest ih =>
    intro shift ip
    rcases List.mem_cons.mp hmem with hg | hg
    · subst hg
      simp only [readGroups, hbad]
    · cases ha : parse_u8 a with
      | none => simp only [readGroups, ha]
      | some v =>
        simp only [readGroups, ha]
        split
        · rfl
        · exact ih hg _ _

/-- `scanZeros` on the zero value consumes all its fuel. -/
theorem scanZeros_zero : ∀ fuel nulls, scanZeros fuel 0 nulls = (0, nulls + fuel)
  | 0, nulls => by simp [scanZeros]
  | fuel + 1, nulls => by
    show (if (0 : Nat) % 2 = 0 then scanZeros fuel (0 / 2) (nulls + 1) else (0, nulls)) =
      (0, nulls + (fuel + 1))
    rw [if_pos (by omega : (0 : Nat) % 2 = 0), Nat.zero_div, scanZeros_zero fuel (nulls + 1)]
    refine Prod.ext rfl ?_
    dsimp only
    omega

/-- `scanZeros` on `m * 2 ^ z` with `m` odd strips exactly the `z` trailing
zero bits, provided at least `z` fuel is available. -/
theorem scanZeros_odd_mul :
    ∀ (z fuel m nulls : Nat), m % 2 = 1 →
      scanZeros (z + fuel) (m * 2 ^ z) nulls = (m, nulls + z)
  | 0, fuel, m, nulls, hm => by
    rw [Nat.zero_add, pow_zero, Nat.mul_one, Nat.add_zero]
    cases fuel with
    | zero => rfl
    | succ f =>
      show (if m % 2 = 0 then scanZeros f (m / 2) (nulls + 1) else (m, nulls)) = (m, nulls)
      rw [if_neg (by omega : ¬ m % 2 = 0)]
  | z + 1, fuel, m, nulls, hm => by
    have hsplit : m * (2 ^ z * 2) = 2 * (m * 2 ^ z) := by ring
    have hev : m * 2 ^ (z + 1) % 2 = 0 := by
      rw [pow_succ, hsplit]
      omega
    have hdiv : m * 2 ^ (z + 1) / 2 = m * 2 ^ z := by
      rw [pow_succ, hsplit]
      omega
    have hstep : (z + 1) + fuel = (z + fuel) + 1 := by omega
    rw [hstep]
    show (if m * 2 ^ (z + 1) % 2 = 0 then
            scanZeros (z + fuel) (m * 2 ^ (z + 1) / 2) (nulls + 1)
          else (m * 2 ^ (z + 1), nulls)) = (m, nulls + (z + 1))
    rw [if_pos hev, hdiv, scanZeros_odd_mul z fuel m (nulls + 1) hm]
    refine Prod.ext rfl ?_
    dsimp only
    omega

/-- General invariant of `scanZeros`: the result divides the input exactly by
the power of two of the consumed bits, the counter only grows (by at most the
fuel), and if fuel remains the surviving value is odd. -/
theorem scanZeros_spec :
    ∀ (fuel ip nulls : Nat),
      (scanZeros fuel ip nulls).1 * 2 ^ ((scanZeros fuel ip nulls).2 - nulls) = ip ∧
      nulls ≤ (scanZeros fuel ip nulls).2 ∧
      (scanZeros fuel ip nulls).2 ≤ nulls + fuel ∧
      ((scanZeros fuel ip nulls).2 < nulls + fuel → (scanZeros fuel ip nulls).1 % 2 = 1)
  | 0, ip, nulls => by simp [scanZeros]
  | fuel + 1, ip, nulls => by
    by_cases hev : ip % 2 = 0
    · have hunf : scanZeros (fuel + 1) ip nulls = scanZeros fuel (ip / 2) (nulls + 1) := by
        show (if ip % 2 = 0 then scanZeros fuel (ip / 2) (nulls + 1) else (ip, nulls)) = _
        rw [if_pos hev]
      rw [hunf]
      obtain ⟨hmul, hlb, hub, hodd⟩ := scanZeros_spec fuel (ip / 2) (nulls + 1)
      refine ⟨?_, by omega, by omega, fun hlt => hodd (by omega)⟩
      have hexp : (scanZeros fuel (ip / 2) (nulls + 1)).2 - nulls =
          ((scanZeros fuel (ip / 2) (nulls + 1)).2 - (nulls + 1)) + 1 := by omega
      rw [hexp, pow_succ, ← Nat.mul_assoc, hmul]
      omega
    · have hunf : scanZeros (fuel + 1) ip nulls = (ip, nulls) := by
        show (if ip % 2 = 0 then scanZeros fuel (ip / 2) (nulls + 1) else (ip, nulls)) = _
        rw [if_neg hev]
      rw [hunf]
      exact ⟨by simp, le_refl _, by omega, fun _ => by omega⟩

/-- `scanOnes` on the all-ones value of exactly `fuel` bits succeeds and adds
`fuel` to the accumulator. -/
theorem scanOnes_allones (s : String) :
    ∀ fuel acc, scanOnes s fuel (2 ^ fuel - 1) acc = .ok (acc + fuel)
  | 0, acc => by simp [scanOnes]
  | fuel + 1, acc => by
    have hp : (1 : Nat) ≤ 2 ^ fuel := Nat.one_le_two_pow
    have h2 : (2 : Nat) ^ (fuel + 1) = 2 ^ fuel * 2 := pow_succ 2 fuel
    have hodd : ((2 : Nat) ^ (fuel + 1) - 1) % 2 = 1 := by omega
    have hdiv : ((2 : Nat) ^ (fuel + 1) - 1) / 2 = 2 ^ fuel - 1 := by omega
    show (if (2 ^ (fuel + 1) - 1) % 2 = 1 then
            scanOnes s fuel ((2 ^ (fuel + 1) - 1) / 2) (acc + 1)
          else .error ("Prefix must be 111 and 000 " ++ s)) = .ok (acc + (fuel + 1))
    rw [if_pos hodd, hdiv, scanOnes_allones s fuel (acc + 1)]
    congr 1
    omega

/-- If `scanOnes` succeeds, every one of its `fuel` bits was a one and the
result is the accumulator plus the fuel. -/
theorem scanOnes_ok (s : String) :
    ∀ {fuel ip acc k : Nat}, scanOnes s fuel ip acc = .ok k →
      k = acc + fuel ∧ ip % 2 ^ fuel = 2 ^ fuel - 1 := by
  intro fuel
  induction fuel with
  | zero =>
    intro ip acc k h
    simp only [scanOnes] at h
    cases h
    exact ⟨by omega, by simp [Nat.mod_one]⟩
  | succ fuel ih =>
    intro ip acc k h
    by_cases hone : ip % 2 = 1
    · have hunf : scanOnes s (fuel + 1) ip acc = scanOnes s fuel (ip / 2) (acc + 1) := by
        show (if ip % 2 = 1 then scanOnes s fuel (ip / 2) (acc + 1)
              else .error ("Prefix must be 111 and 000 " ++ s)) = _
        rw [if_pos hone]
      rw [hunf] at h
      obtain ⟨hk, hmod⟩ := ih h
      have hp : (1 : Nat) ≤ 2 ^ fuel := Nat.one_le_two_pow
      have h2 : (2 : Nat) ^ (fuel + 1) = 2 ^ fuel * 2 := pow_succ 2 fuel
      refine ⟨by omega, ?_⟩
      have hq : ip / 2 = 2 ^ fuel * (ip / 2 / 2 ^ fuel) + (2 ^ fuel - 1) := by
        conv_lhs => rw [← Nat.div_add_mod (ip / 2) (2 ^ fuel)]
        rw [hmod]
      have hmm : 2 ^ (fuel + 1) * (ip / 2 / 2 ^ fuel) = 2 * (2 ^ fuel * (ip / 2 / 2 ^ fuel)) := by
        rw [h2]
        ring
      have hip : ip = 2 ^ (fuel + 1) * (ip / 2 / 2 ^ fuel) + (2 ^ (fuel + 1) - 1) := by
        omega
      rw [hip, Nat.mul_add_mod]
      exact Nat.mod_eq_of_lt (by have := Nat.one_le_two_pow (n := fuel + 1); omega)
    · have hunf : scanOnes s (fuel + 1) ip acc =
          .error ("Prefix must be 111 and 000 " ++ s) := by
        show (if ip % 2 = 1 then scanOnes s fuel (ip / 2) (acc + 1)
              else .error ("Prefix must be 111 and 000 " ++ s)) = _
        rw [if_neg hone]
      rw [hunf] at h
      cases h

/-- The only error `scanOnes` ever returns is the contiguity message naming
the netmask text. -/
theorem scanOnes_error (s : String) :
    ∀ {fuel ip acc : Nat} {e : String}, scanOnes s fuel ip acc = .error e →
      e = "Prefix must be 111 and 000 " ++ s := by
  intro fuel
  induction fuel with
  | zero => intro ip acc e h; cases h
  | succ fuel ih =>
    intro ip acc e h
    simp only [scanOnes] at h
    split at h
    · exact ih h
    · cases h
      rfl

/-- The all-ones-then-zeros value of prefix length `k`, written as a product. -/
theorem ones_mul_pow {k : Nat} (hk : k ≤ 32) :
    (2 ^ k - 1) * 2 ^ (32 - k) = 2 ^ 32 - 2 ^ (32 - k) := by
  have h : (2 : Nat) ^ k * 2 ^ (32 - k) = 2 ^ 32 := by
    rw [← pow_add]
    congr 1
    omega
  have h1 : (1 : Nat) ≤ 2 ^ k := Nat.one_le_two_pow
  rw [Nat.sub_mul, one_mul, h]


/-- Reduction of `parse_netmask` once the group loop is known to succeed. -/
theorem parse_netmask_eq_scan {s : String} {ip : Nat}
    (h : readGroups (splitDot s) 24 0 = .ok ip) :
    Prefix32.parse_netmask s =
      .ok (match scanOnes s (32 - (scanZeros 32 ip 0).2) (scanZeros 32 ip 0).1 0 with
           | .error e => .error e
           | .ok one_prefix => Prefix32.new one_prefix) := by
  unfold Prefix32.parse_netmask
  rw [h]

/-- Success half: when the assembled 32-bit value is `k` one-bits followed by
`32 - k` zero-bits, the scan yields exactly `k` and the parse succeeds. -/
theorem parse_ok_of_form (s : String) (k : Nat) (hk : k ≤ 32)
    (hip : readGroups (splitDot s) 24 0 = .ok (2 ^ 32 - 2 ^ (32 - k))) :
    Prefix32.parse_netmask s = .ok (.ok ⟨k, 32, 8, Prefix.inMask 32⟩) := by
  rw [parse_netmask_eq_scan hip]
  rcases Nat.eq_zero_or_pos k with hk0 | hkpos
  · subst hk0
    rw [show (2 : Nat) ^ 32 - 2 ^ (32 - 0) = 0 from by norm_num, scanZeros_zero 32 0]
    norm_num [scanOnes, Prefix32.new]
  · have hodd : ((2 : Nat) ^ k - 1) % 2 = 1 := by
      have hkk : k = (k - 1) + 1 := by omega
      have h2 : (2 : Nat) ^ k = 2 ^ (k - 1) * 2 := by
        conv_lhs => rw [hkk]
        exact pow_succ 2 (k - 1)
      have hp : (1 : Nat) ≤ 2 ^ (k - 1) := Nat.one_le_two_pow
      omega
    have hform : (2 : Nat) ^ 32 - 2 ^ (32 - k) = (2 ^ k - 1) * 2 ^ (32 - k) :=
      (ones_mul_pow hk).symm
    have hz := scanZeros_odd_mul (32 - k) k (2 ^ k - 1) 0 hodd
    rw [show 32 - k + k = 32 from by omega] at hz
    rw [hform, hz]
    dsimp only
    rw [show 32 - (0 + (32 - k)) = k from by omega, scanOnes_allones s k 0, Nat.zero_add]
    dsimp only
    unfold Prefix32.new
    rw [if_pos hk]

/-- Converse half: if the two scan loops accept a 32-bit value, that value is
`k` one-bits followed by `32 - k` zero-bits for the returned count `k`. -/
theorem scan_ok_form (s : String) {ip k : Nat} (hlt : ip < 2 ^ 32)
    (h : scanOnes s (32 - (scanZeros 32 ip 0).2) (scanZeros 32 ip 0).1 0 = .ok k) :
    k ≤ 32 ∧ ip = 2 ^ 32 - 2 ^ (32 - k) := by
  obtain ⟨hmul, hlb, hub, hodd⟩ := scanZeros_spec 32 ip 0
  obtain ⟨hk, hmod⟩ := scanOnes_ok s h
  rw [Nat.sub_zero] at hmul
  rw [Nat.zero_add] at hk
  have hz32 : (scanZeros 32 ip 0).2 ≤ 32 := by omega
  have hk32 : k ≤ 32 := by omega
  refine ⟨hk32, ?_⟩
  have hsplit : (2 : Nat) ^ (32 - (scanZeros 32 ip 0).2) * 2 ^ (scanZeros 32 ip 0).2 =
      2 ^ 32 := by
    rw [← pow_add]
    congr 1
    omega
  have hmlt : (scanZeros 32 ip 0).1 < 2 ^ (32 - (scanZeros 32 ip 0).2) := by
    by_contra hge
    push_neg at hge
    have hbig : 2 ^ (32 - (scanZeros 32 ip 0).2) * 2 ^ (scanZeros 32 ip 0).2 ≤
        (scanZeros 32 ip 0).1 * 2 ^ (scanZeros 32 ip 0).2 :=
      Nat.mul_le_mul_right _ hge
    rw [hsplit, hmul] at hbig
    omega
  have hm : (scanZeros 32 ip 0).1 = 2 ^ (32 - (scanZeros 32 ip 0).2) - 1 := by
    rw [← Nat.mod_eq_of_lt hmlt, hmod]
  have hzk : (scanZeros 32 ip 0).2 = 32 - k := by omega
  rw [← hmul, hm, hzk, show 32 - (32 - k) = k from by omega]
  exact ones_mul_pow hk32

/-! ### Claim theorems -/

/-- Claim C3: for every integer `n` with `0 <= n <= 32`, `Prefix32::new n`
succeeds and returns a `Prefix` whose `num` is `n`, whose `ip_bits` is 32 and
whose `ip_part_bits` is 8. -/
theorem new_accepts_in_range (n : Nat) (hn : n ≤ 32) :
    ∃ p : Prefix, Prefix32.new n = .ok p ∧ p.num = n ∧ p.ip_bits = 32 ∧ p.ip_part_bits = 8 := by
  refine ⟨⟨n, 32, 8, Prefix.inMask 32⟩, ?_, rfl, rfl, rfl⟩
  unfold Prefix32.new
  rw [if_pos hn]

/-- Witness for C3 at `n = 24`. -/
theorem new_accepts_in_range_witness :
    ∃ p : Prefix, Prefix32.new 24 = .ok p ∧ p.num = 24 ∧ p.ip_bits = 32 ∧ p.ip_part_bits = 8 :=
  new_accepts_in_range 24 (by norm_num)

/-- Claim C4: for every `u8` value `n` outside `[0, 32]` (that is,
`33 <= n <= 255`), `Prefix32::new n` fails with the range error carrying the
offending value, and consequently any `Prefix` this constructor produces has
its length within `[0, 32]`. -/
theorem new_rejects_out_of_range :
    (∀ n : Nat, 32 < n → n ≤ 255 →
      Prefix32.new n = .error ("Prefix must be in range 0..32, got: " ++ toString n)) ∧
    (∀ (n : Nat) (p : Prefix), Prefix32.new n = .ok p → p.num ≤ 32) := by
  constructor
  · intro n h1 _
    unfold Prefix32.new
    rw [if_neg (by omega : ¬ n ≤ 32)]
  · intro n p h
    unfold Prefix32.new at h
    split at h
    · cases h
      assumption
    · cases h

/-- Witness for C4 at `n = 33`. -/
theorem new_rejects_out_of_range_witness :
    Prefix32.new 33 = .error ("Prefix must be in range 0..32, got: " ++ toString 33) :=
  new_rejects_out_of_range.1 33 (by norm_num) (by norm_num)

/-- Claim C7: `to_ip_str` on exactly four group values renders the groups in
order, separated by periods; in particular `[255, 255, 255, 0]` renders as
`"255.255.255.0"`. -/
theorem to_ip_str_renders_four_groups :
    (∀ g0 g1 g2 g3 : Nat, Prefix32.to_ip_str [g0, g1, g2, g3] =
      some (String.intercalate "." [toString g0, toString g1, toString g2, toString g3])) ∧
    Prefix32.to_ip_str [255, 255, 255, 0] = some "255.255.255.0" :=
  ⟨fun _ _ _ _ => rfl, by decide⟩

/-- Claim C8: `to_ip_str` on a list of fewer than four values reaches the
error branch of the element access (the `None` of `Vec::get`, whose `unwrap`
aborts) and returns no normal string. -/
theorem to_ip_str_short_input_no_string (l : List Nat) (h : l.length < 4) :
    Prefix32.to_ip_str l = none := by
  rcases l with _ | ⟨a, _ | ⟨b, _ | ⟨c, _ | ⟨d, rest⟩⟩⟩⟩
  · rfl
  · rfl
  · rfl
  · rfl
  · exact absurd h (by simp)

/-- Witness for C8 at the three-element list `[1, 2, 3]`. -/
theorem to_ip_str_short_input_no_string_witness : Prefix32.to_ip_str [1, 2, 3] = none :=
  to_ip_str_short_input_no_string [1, 2, 3] (by norm_num)

/-- Claim C9 (implicit): `Prefix32::from` ignores its `Prefix` receiver
entirely; for every receiver and every number it returns exactly what
`Prefix32::new` returns on that number, on success and on failure alike. -/
theorem from_ignores_receiver (p : Prefix) (num : Nat) :
    Prefix32.«from» p num = Prefix32.new num := rfl

/-- Claim C1: for every netmask string of exactly four period-separated
decimal groups whose assembled 32-bit value (group 0 in bits 24-31, group 1
in bits 16-23, group 2 in bits 8-15, group 3 in bits 0-7, exactly as the
`readGroups` loop packs them) is `k` one-bits followed by `32 - k` zero-bits,
`parse_netmask` succeeds with prefix length `k`; in particular
`"255.255.255.0"` gives 24, `"255.255.255.255"` gives 32 and `"0.0.0.0"`
gives 0. -/
theorem parse_netmask_accepts_contiguous :
    (∀ (s : String) (gs : List String) (k : Nat),
      splitDot s = gs → gs.length = 4 → k ≤ 32 →
      readGroups gs 24 0 = .ok (2 ^ 32 - 2 ^ (32 - k)) →
      ∃ p : Prefix, Prefix32.parse_netmask s = .ok (.ok p) ∧ p.num = k) ∧
    (∃ p : Prefix, Prefix32.parse_netmask "255.255.255.0" = .ok (.ok p) ∧ p.num = 24) ∧
    (∃ p : Prefix, Prefix32.parse_netmask "255.255.255.255" = .ok (.ok p) ∧ p.num = 32) ∧
    (∃ p : Prefix, Prefix32.parse_netmask "0.0.0.0" = .ok (.ok p) ∧ p.num = 0) := by
  refine ⟨?_, ⟨⟨24, 32, 8, Prefix.inMask 32⟩, by decide, rfl⟩,
    ⟨⟨32, 32, 8, Prefix.inMask 32⟩, by decide, rfl⟩,
    ⟨⟨0, 32, 8, Prefix.inMask 32⟩, by decide, rfl⟩⟩
  intro s gs k hs _hlen hk hip
  subst hs
  exact ⟨⟨k, 32, 8, Prefix.inMask 32⟩, parse_ok_of_form s k hk hip, rfl⟩

/-- Witness for C1's general part at `"255.255.252.0"`, prefix length 22. -/
theorem parse_netmask_accepts_contiguous_witness :
    ∃ p : Prefix, Prefix32.parse_netmask "255.255.252.0" = .ok (.ok p) ∧ p.num = 22 :=
  parse_netmask_accepts_contiguous.1 "255.255.252.0" ["255", "255", "252", "0"] 22
    (by decide) (by decide) (by norm_num) (by decide)

/-- Claim C2: for every netmask string of four valid decimal groups whose
assembled 32-bit value is not of the ones-then-zeros form, `parse_netmask`
returns the contiguity validation error carrying the original netmask text;
in particular for `"255.254.255.0"` and `"255.255.255.1"`. -/
theorem parse_netmask_rejects_noncontiguous :
    (∀ (s g0 g1 g2 g3 : String) (v0 v1 v2 v3 : Nat),
      splitDot s = [g0, g1, g2, g3] →
      parse_u8 g0 = some v0 → parse_u8 g1 = some v1 →
      parse_u8 g2 = some v2 → parse_u8 g3 = some v3 →
      (∀ k : Nat, k ≤ 32 →
        (((0 ||| v0 <<< 24) ||| v1 <<< 16) ||| v2 <<< 8) ||| v3 <<< 0 ≠
          2 ^ 32 - 2 ^ (32 - k)) →
      Prefix32.parse_netmask s = .ok (.error ("Prefix must be 111 and 000 " ++ s))) ∧
    Prefix32.parse_netmask "255.254.255.0" =
      .ok (.error "Prefix must be 111 and 000 255.254.255.0") ∧
    Prefix32.parse_netmask "255.255.255.1" =
      .ok (.error "Prefix must be 111 and 000 255.255.255.1") := by
  refine ⟨?_, by decide, by decide⟩
  intro s g0 g1 g2 g3 v0 v1 v2 v3 hs h0 h1 h2 h3 hnc
  have hrg := readGroups_four h0 h1 h2 h3
  rw [← hs] at hrg
  rw [parse_netmask_eq_scan hrg]
  have hlt : (((0 ||| v0 <<< 24) ||| v1 <<< 16) ||| v2 <<< 8) ||| v3 <<< 0 < 2 ^ 32 :=
    four_octets_lt (parse_u8_le h0) (parse_u8_le h1) (parse_u8_le h2) (parse_u8_le h3)
  cases hscan : scanOnes s
      (32 - (scanZeros 32 ((((0 ||| v0 <<< 24) ||| v1 <<< 16) ||| v2 <<< 8) ||| v3 <<< 0) 0).2)
      (scanZeros 32 ((((0 ||| v0 <<< 24) ||| v1 <<< 16) ||| v2 <<< 8) ||| v3 <<< 0) 0).1 0 with
  | error e =>
    dsimp only
    rw [scanOnes_error s hscan]
  | ok k =>
    obtain ⟨hk32, hform⟩ := scan_ok_form s hlt hscan
    exact absurd hform (hnc k hk32)

/-- Witness for C2's general part at `"0.255.0.0"` (zeros below the ones). -/
theorem parse_netmask_rejects_noncontiguous_witness :
    Prefix32.parse_netmask "0.255.0.0" = .ok (.error ("Prefix must be 111 and 000 " ++ "0.255.0.0")) :=
  parse_netmask_rejects_noncontiguous.1 "0.255.0.0" "0" "255" "0" "0" 0 255 0 0
    (by decide) (by decide) (by decide) (by decide) (by decide) (by decide)

/-- Claim C6 counterexample: the input `"256.0.0.0"` has a malformed group
(256 is outside `u8` range), yet `parse_netmask` panics on the `unwrap` of
the failed group parse instead of returning an error result value, so the
claim that every malformed group surfaces as a returned error is false. -/
theorem parse_netmask_malformed_group_panics_cex :
    Prefix32.parse_netmask "256.0.0.0" = .panicked := by decide

/-- Claim C6 amended: for every input string containing a group that fails
the `u8` parse (non-numeric or out of the 0-255 range), `parse_netmask`
aborts with a panic (the `unwrap` on the failed parse), not with a returned
error value; the group count itself is not validated at this stage. -/
theorem parse_netmask_malformed_group_aborts (s g : String)
    (hmem : g ∈ splitDot s) (hbad : parse_u8 g = none) :
    Prefix32.parse_netmask s = .panicked := by
  unfold Prefix32.parse_netmask
  rw [readGroups_panicked_of_mem hmem hbad 24 0]

/-- Witness for the amended C6 at `"abc.0.0.0"`. -/
theorem parse_netmask_malformed_group_aborts_witness :
    Prefix32.parse_netmask "abc.0.0.0" = .panicked :=
  parse_netmask_malformed_group_aborts "abc.0.0.0" "abc" (by decide) (by decide)

/-- Claim C10 (implicit): `parse_netmask` does not reject strings with fewer
than four groups; one to three groups behave exactly as if the missing
low-order groups were zero octets, and in particular `"255.255"` parses to
prefix length 16 and `"255"` to prefix length 8. -/
theorem parse_netmask_pads_missing_groups :
    (∀ gs : List String, 1 ≤ gs.length → gs.length ≤ 3 →
      readGroups gs 24 0 = readGroups (gs ++ List.replicate (4 - gs.length) "0") 24 0) ∧
    (∃ p : Prefix, Prefix32.parse_netmask "255.255" = .ok (.ok p) ∧ p.num = 16) ∧
    (∃ p : Prefix, Prefix32.parse_netmask "255" = .ok (.ok p) ∧ p.num = 8) := by
  have hz : parse_u8 "0" = some 0 := by decide
  refine ⟨?_, ⟨⟨16, 32, 8, Prefix.inMask 32⟩, by decide, rfl⟩,
    ⟨⟨8, 32, 8, Prefix.inMask 32⟩, by decide, rfl⟩⟩
  intro gs hge hle
  rcases gs with _ | ⟨a, _ | ⟨b, _ | ⟨c, _ | ⟨d, rest⟩⟩⟩⟩
  · exact absurd hge (by simp)
  · cases ha : parse_u8 a with
    | none => simp [readGroups, ha]
    | some va => simp [readGroups, ha, hz, List.replicate]
  · cases ha : parse_u8 a with
    | none => simp [readGroups, ha]
    | some va =>
      cases hb : parse_u8 b with
      | none => simp [readGroups, ha, hb]
      | some vb => simp [readGroups, ha, hb, hz, List.replicate]
  · cases ha : parse_u8 a with
    | none => simp [readGroups, ha]
    | some va =>
      cases hb : parse_u8 b with
      | none => simp [readGroups, ha, hb]
      | some vb =>
        cases hc : parse_u8 c with
        | none => simp [readGroups, ha, hb, hc]
        | some vc => simp [readGroups, ha, hb, hc, hz, List.replicate]
  · exact absurd hle (by simp)

/-- Witness for C10's general part at the single-group list `["255"]`. -/
theorem parse_netmask_pads_missing_groups_witness :
    readGroups ["255"] 24 0 =
      readGroups (["255"] ++ List.replicate (4 - (["255"] : List String).length) "0") 24 0 :=
  parse_netmask_pads_missing_groups.1 ["255"] (by decide) (by decide)

/-- Claim C5: for every prefix length `n` in `[0, 32]`, rendering the four
octet groups of the netmask derived from `construct(n)` with `to_ip_str` and
re-parsing the resulting string with `parse_netmask` succeeds and yields a
`Prefix` whose length equals `n`. -/
theorem netmask_roundtrip (n : Nat) (hn : n ≤ 32) :
    ∃ (s : String) (p : Prefix),
      Prefix32.to_ip_str (netmask_octets n) = some s ∧ p.num = n ∧
      Prefix32.parse_netmask s = .ok (.ok p) := by
  interval_cases n <;> exact ⟨_, ⟨_, 32, 8, Prefix.inMask 32⟩, rfl, rfl, by decide⟩

/-- Witness for C5 at `n = 24`. -/
theorem netmask_roundtrip_witness :
    ∃ (s : String) (p : Prefix),
      Prefix32.to_ip_str (netmask_octets 24) = some s ∧ p.num = 24 ∧
      Prefix32.parse_netmask s = .ok (.ok p) :=
  netmask_roundtrip 24 (by norm_num)
